import Mathlib

/-!
Verification development for the Code_duel_backend repository.

The definitions below are shallow embeddings of the repository's source files:
`src/services/leetcodeApiClient.js`, `src/services/penalty.service.js`,
`src/utils/sanitizer.js` and the sanitized LeetCode controller.  The job queue,
worker and evaluation handlers (`src/config/queue.js`,
`src/workers/evaluation.worker.js`, `src/services/evaluation.service.js`) are
not present in the sources (only the background-job implementation guide is),
so those components are modelled from the specification, as marked on each
definition.
-/

/-! ## External Submission Client (`src/services/leetcodeApiClient.js`) -/

/-- One upstream HTTP interaction, as seen by `leetcodeApiRequest`: a successful
response (`response.data`), an HTTP error response carrying a status code and an
optional parsed `retry-after` header value (in seconds), or a network failure
with no response at all (`error.response` is undefined, so
`error.response?.status` is undefined). -/
inductive UpstreamResponse where
  | success (data : String)
  | httpError (status : Nat) (retryAfter : Option Nat)
  | networkFailure
deriving DecidableEq

/-- Classification of how `leetcodeApiRequest` finishes: return of
`response.data`, the thrown `Error('LeetCode API rate limit exceeded after
retries')`, or an upstream error rethrown as-is (its status, `none` for a
network failure). -/
inductive ApiOutcome where
  | success (data : String)
  | rateLimitExceeded
  | immediateError (status : Option Nat)
deriving DecidableEq

/-- An execution of the client: its outcome, the number of HTTP requests it
issued, and the backoff waits it performed (in milliseconds, in order). -/
structure ApiRun where
  outcome : ApiOutcome
  requests : Nat
  delays : List Nat
deriving DecidableEq

/-- The wait before retrying a 429, from `leetcodeApiClient.js` line 31:
`retryAfter ? parseInt(retryAfter) * 1000 : backoff * Math.pow(2, attempt)`. -/
def retryDelay (backoff attempt : Nat) (retryAfter : Option Nat) : Nat :=
  match retryAfter with
  | some n => n * 1000
  | none => backoff * 2 ^ attempt

/-- The `while (attempt <= retries)` loop of `leetcodeApiRequest`, entered at
attempt index `attempt` with `remaining = retries - attempt` further iterations
allowed after the current one.  `responses i` is the upstream's reply to the
request issued at attempt `i`.  On a 429 with no attempts left the loop throws
the rate-limit error; on a 429 with attempts left it waits `retryDelay` and
retries; any other error is rethrown immediately. -/
def leetcodeApiLoop (responses : Nat → UpstreamResponse) (backoff attempt remaining : Nat) :
    ApiRun :=
  match responses attempt with
  | .success d => ⟨.success d, 1, []⟩
  | .httpError status ra =>
    if status = 429 then
      match remaining with
      | 0 => ⟨.rateLimitExceeded, 1, []⟩
      | r + 1 =>
        let rest := leetcodeApiLoop responses backoff (attempt + 1) r
        ⟨rest.outcome, rest.requests + 1, retryDelay backoff attempt ra :: rest.delays⟩
    else ⟨.immediateError (some status), 1, []⟩
  | .networkFailure => ⟨.immediateError none, 1, []⟩

/-- `leetcodeApiRequest(query, variables, retries, backoff)`
(`leetcodeApiClient.js` lines 12–40), abstracted over the sequence of upstream
responses. -/
def leetcodeApiRequest (responses : Nat → UpstreamResponse) (retries backoff : Nat) : ApiRun :=
  leetcodeApiLoop responses backoff 0 retries

/-- The client with its default arguments `retries = 5`, `backoff = 1000`. -/
def leetcodeApiRequestDefault (responses : Nat → UpstreamResponse) : ApiRun :=
  leetcodeApiRequest responses 5 1000

/-- The response is an HTTP 429 (rate limited). -/
def is429 : UpstreamResponse → Bool
  | .httpError s _ => s == 429
  | _ => false

/-- The response is an upstream error other than a 429: a non-429 HTTP error or
a network failure with no status. -/
def isNon429Error : UpstreamResponse → Bool
  | .httpError s _ => s != 429
  | .networkFailure => true
  | .success _ => false

/-- The status carried by an error response (`none` for a network failure). -/
def errStatus : UpstreamResponse → Option Nat
  | .httpError s _ => some s
  | _ => none

/-- The parsed `retry-after` header of a response, when present. -/
def retryAfterOf : UpstreamResponse → Option Nat
  | .httpError _ ra => ra
  | _ => none

/-! ## Penalty service (`src/services/penalty.service.js`) -/

/-- A PenaltyLedger row as created by `applyPenalty` (`penalty.service.js`
lines 14–21); `id` is the database-assigned key that `adjustPenalty` looks the
row up by. -/
structure PenaltyEntry where
  id : Nat
  memberId : String
  amount : Int
  reason : String
  date : Nat
deriving DecidableEq

/-- A ChallengeMember row, restricted to the fields the penalty service
touches. -/
structure MemberRec where
  id : String
  totalPenalties : Int
deriving DecidableEq

/-- The store state seen by the penalty service: the PenaltyLedger table, the
ChallengeMember table and the next ledger id the database will assign. -/
structure PenaltyState where
  nextId : Nat
  ledger : List PenaltyEntry
  members : List MemberRec
deriving DecidableEq

/-- `prisma.challengeMember.update({ where: { id }, data: { totalPenalties:
{ increment: delta } } })`: increments the matching row's total; `none` when no
row matches (prisma throws). -/
def updateMemberTotal (members : List MemberRec) (memberId : String) (delta : Int) :
    Option (List MemberRec) :=
  if members.any (fun m => m.id == memberId) then
    some (members.map (fun m =>
      if m.id == memberId then { m with totalPenalties := m.totalPenalties + delta } else m))
  else none

/-- `applyPenalty(memberId, amount, reason, date)` (`penalty.service.js` lines
12–50): creates the PenaltyLedger row, then increments the member's
`totalPenalties` by `amount`.  The row is created before the member update, so
a failing update leaves the row behind; the second component is the thrown
error, when one is thrown. -/
def applyPenalty (memberId : String) (amount : Int) (reason : String) (date : Nat)
    (st : PenaltyState) : PenaltyState × Option String :=
  let entry : PenaltyEntry := ⟨st.nextId, memberId, amount, reason, date⟩
  let st1 : PenaltyState := { st with nextId := st.nextId + 1, ledger := st.ledger ++ [entry] }
  match updateMemberTotal st1.members memberId amount with
  | some ms => ({ st1 with members := ms }, none)
  | none => (st1, some "member not found")

/-- `adjustPenalty(penaltyId, adjustmentAmount)` (`penalty.service.js` lines
129–161): looks the ledger row up, throws "Penalty not found" when absent, and
otherwise deletes the row and increments the member's `totalPenalties` by
`adjustmentAmount - penalty.amount`. -/
def adjustPenalty (penaltyId : Nat) (adjustmentAmount : Int) (st : PenaltyState) :
    PenaltyState × Option String :=
  match st.ledger.find? (fun e => e.id == penaltyId) with
  | none => (st, some "Penalty not found")
  | some e =>
    let st1 : PenaltyState := { st with ledger := st.ledger.filter (fun x => x.id != penaltyId) }
    match updateMemberTotal st1.members e.memberId (adjustmentAmount - e.amount) with
    | some ms => ({ st1 with members := ms }, none)
    | none => (st1, some "member not found")

/-- `prisma.penaltyLedger.aggregate({ where: { memberId }, _sum: { amount } })`:
the SQL SUM over the member's rows, null (`none`) when no row matches. -/
def aggregateAmountSum (ledger : List PenaltyEntry) (memberId : String) : Option Int :=
  let rows := ledger.filter (fun e => e.memberId == memberId)
  if rows.isEmpty then none else some ((rows.map (fun e => e.amount)).sum)

/-- `getMemberTotalPenalty(memberId)` (`penalty.service.js` lines 73–82):
`result._sum.amount || 0` — a null (or zero, both falsy) sum becomes 0. -/
def getMemberTotalPenalty (ledger : List PenaltyEntry) (memberId : String) : Int :=
  match aggregateAmountSum ledger memberId with
  | none => 0
  | some s => if s == 0 then 0 else s

/-- One call into the penalty service. -/
inductive POp where
  | apply (memberId : String) (amount : Int) (reason : String) (date : Nat)
  | adjust (penaltyId : Nat) (adjustmentAmount : Int)
deriving DecidableEq

/-- Dispatch one penalty-service call. -/
def runPOp : POp → PenaltyState → PenaltyState × Option String
  | .apply m a r d, st => applyPenalty m a r d st
  | .adjust p a, st => adjustPenalty p a st

/-- Run a sequence of penalty-service calls, stopping at the first thrown
error; the state reached so far is kept (prisma calls already executed are not
rolled back). -/
def runPenaltyOps : List POp → PenaltyState → PenaltyState × Option String
  | [], st => (st, none)
  | op :: ops, st =>
    match runPOp op st with
    | (st1, none) => runPenaltyOps ops st1
    | (st1, some e) => (st1, some e)

/-- Sum of `PenaltyLedger.amount` over the rows with the given `memberId`. -/
def ledgerSum (ledger : List PenaltyEntry) (memberId : String) : Int :=
  (ledger.map (fun e => if e.memberId == memberId then e.amount else 0)).sum

/-- The spec's reconciliation invariant: every member's ledger sum equals that
member's `totalPenalties`. -/
def penaltyReconciled (st : PenaltyState) : Prop :=
  ∀ m ∈ st.members, ledgerSum st.ledger m.id = m.totalPenalties

instance (st : PenaltyState) : Decidable (penaltyReconciled st) :=
  List.decidableBAll _ st.members

/-- Well-formedness the database guarantees for states it actually produces:
ledger ids are pairwise distinct and below the next id to be assigned. -/
def penaltyWF (st : PenaltyState) : Prop :=
  (st.ledger.map (fun e => e.id)).Nodup ∧ ∀ e ∈ st.ledger, e.id < st.nextId

/-- The operation is not an `adjustPenalty` with a nonzero adjustment. -/
def zeroAdjust : POp → Prop
  | .apply _ _ _ _ => True
  | .adjust _ a => a = 0

/-! ## Job queue retry policy

Modelled from the spec: `src/config/queue.js` and the queue's retry mechanics
are not among the sources (only the background-job implementation guide is). -/

/-- Job lifecycle states of the spec's data model (§3). -/
inductive JobState where
  | waiting
  | active
  | completed
  | failed
deriving DecidableEq

/-- Modelled from the spec: a job envelope (§3), restricted to the fields the
retry policy reads.  `attempt` counts the runs started so far. -/
structure Job where
  attempt : Nat
  maxAttempts : Nat
  state : JobState
  nextAttemptAt : Nat
deriving DecidableEq

/-- Modelled from the spec (§7): how a handler run ends — success, a retryable
error (transient upstream or storage failure), or a non-retryable error
(malformed payload, unknown job type, entity not found). -/
inductive HandlerOutcome where
  | ok
  | errRetryable
  | errNonRetryable
deriving DecidableEq

/-- Modelled from the spec (§4.1): the `fail` transition — if
`attempt < maxAttempts`, schedule `nextAttemptAt = now + baseDelay * 2^attempt`
and return the job to `waiting`; otherwise transition to `failed` terminally. -/
def failJob (now baseDelay : Nat) (j : Job) : Job :=
  if j.attempt < j.maxAttempts then
    { j with state := JobState.waiting, nextAttemptAt := now + baseDelay * 2 ^ j.attempt }
  else
    { j with state := JobState.failed }

/-- Modelled from the spec (§4.2, §7): one delivery of a job.  The job becomes
active with its attempt counter bumped; then the handler outcome is applied:
`ack` on success, the §4.1 `fail` transition on a retryable error, and an
immediate terminal failure — no retry, no backoff — on a non-retryable error.
The second component is the backoff delay scheduled, when one is. -/
def processOnce (now baseDelay : Nat) (outcome : HandlerOutcome) (j : Job) :
    Job × Option Nat :=
  let j1 := { j with attempt := j.attempt + 1, state := JobState.active }
  match outcome with
  | .ok => ({ j1 with state := JobState.completed }, none)
  | .errNonRetryable => ({ j1 with state := JobState.failed }, none)
  | .errRetryable =>
    (failJob now baseDelay j1,
     if j1.attempt < j1.maxAttempts then some (baseDelay * 2 ^ j1.attempt) else none)

/-- Modelled from the spec: repeated delivery of one waiting job, whose handler
outcome at its k-th run (0-based) is `handler k`, until the job completes or
fails terminally; collects the scheduled backoff delays in order.  `fuel`
bounds the recursion. -/
def driveJob (handler : Nat → HandlerOutcome) (now baseDelay : Nat) (j : Job) (fuel : Nat) :
    Job × List Nat :=
  match fuel with
  | 0 => (j, [])
  | f + 1 =>
    if j.state = JobState.waiting then
      match processOnce now baseDelay (handler j.attempt) j with
      | (j1, some d) =>
        let rest := driveJob handler now baseDelay j1 f
        (rest.1, d :: rest.2)
      | (j1, none) => (j1, [])
    else (j, [])

/-- A freshly enqueued job: no runs yet, waiting. -/
def freshJob (maxAttempts : Nat) : Job :=
  ⟨0, maxAttempts, JobState.waiting, 0⟩

/-! ## Fan-out orchestrator (`challenge-evaluation` handler)

Modelled from the spec: `src/workers/evaluation.worker.js` is not among the
sources. -/

/-- Challenge configuration, the spec's §3 data model.  Dates are day indices;
`status` is the raw status string ("active" while the challenge runs); an
empty `difficultyFilter` means no difficulty filter is configured. -/
structure Challenge where
  id : String
  startDate : Nat
  endDate : Nat
  minSubmissionsPerDay : Nat
  difficultyFilter : List String
  uniqueProblemConstraint : Bool
  penaltyAmount : Int
  status : String
deriving DecidableEq

/-- A `member-evaluation` job payload (§4.3). -/
structure MemberEvalJob where
  challengeId : String
  memberId : String
  evaluationDate : Nat
deriving DecidableEq

/-- Modelled from the spec (§4.3): the `challenge-evaluation` handler.  If
`status ≠ active` or the evaluation date lies outside `[startDate, endDate]`,
it is a no-op that succeeds with zero jobs; otherwise it enqueues one
`member-evaluation` job per currently active member.  Returns the enqueued
jobs. -/
def processChallengeEvaluation (c : Challenge) (activeMembers : List String)
    (evaluationDate : Nat) : List MemberEvalJob :=
  if c.status ≠ "active" ∨ evaluationDate < c.startDate ∨ c.endDate < evaluationDate then
    []
  else
    activeMembers.map (fun m => ⟨c.id, m, evaluationDate⟩)

/-! ## Member evaluation handler and evaluation engine

Modelled from the spec: the `member-evaluation` handler of
`src/workers/evaluation.worker.js` is not among the sources. -/

/-- A submission fetched from the external API (§3). -/
structure Submission where
  problemSlug : String
  difficulty : String
  timestampUTC : Nat
  accepted : Bool
deriving DecidableEq

/-- Modelled from the spec (§4.4 step 2): filter to accepted submissions, apply
the difficulty filter when one is configured, deduplicate by problem slug under
the unique-problem constraint, and count. -/
def qualifyingCount (c : Challenge) (subs : List Submission) : Nat :=
  let acc := subs.filter (fun s => s.accepted)
  let filt := if c.difficultyFilter.isEmpty then acc
              else acc.filter (fun s => c.difficultyFilter.contains s.difficulty)
  if c.uniqueProblemConstraint then ((filt.map (fun s => s.problemSlug)).dedup).length
  else filt.length

/-- Modelled from the spec (§4.4 step 2): the daily requirement check,
`passed = qualifyingCount ≥ minSubmissionsPerDay`. -/
def evalPassed (c : Challenge) (subs : List Submission) : Bool :=
  decide (c.minSubmissionsPerDay ≤ qualifyingCount c subs)

/-- The streak/penalty fields of a ChallengeMember (§3). -/
structure MemberState where
  currentStreak : Int
  longestStreak : Int
  totalPenalties : Int
deriving DecidableEq

/-- Modelled from the spec (§4.4 step 4): the streak part of the state
transition — on a pass the streak increments and the longest streak absorbs
it; on a fail the streak resets to zero. -/
def streakTransition (passed : Bool) (m : MemberState) : MemberState :=
  if passed then
    { m with currentStreak := m.currentStreak + 1,
             longestStreak := max m.longestStreak (m.currentStreak + 1) }
  else
    { m with currentStreak := 0 }

/-- A PenaltyLedger entry in the spec's §3 shape. -/
structure LedgerEntry where
  memberId : String
  amount : Int
  reason : String
  date : Nat
deriving DecidableEq

/-- A DailyResult row (§3), keyed by `(memberId, date)`. -/
structure DailyResult where
  memberId : String
  date : Nat
  submissionCount : Nat
  qualifyingProblems : Nat
  passed : Bool
deriving DecidableEq

/-- The slice of the store the member evaluation handler touches: the
DailyResult table, the evaluated member's streak/penalty fields and the
member's penalty ledger. -/
structure EvalStore where
  dailyResults : List DailyResult
  member : MemberState
  ledger : List LedgerEntry
deriving DecidableEq

/-- Modelled from the spec (§4.4 steps 2–4): the `member-evaluation` handler,
with the submissions already fetched.  It evaluates the submissions, writes the
DailyResult for `(memberId, evaluationDate)`, and applies the streak/penalty
transition — conditioned on that DailyResult being the first materialization
for the key, so a redelivered invocation that finds the row does not
double-apply the delta. -/
def processMemberEvaluation (c : Challenge) (memberId : String) (evaluationDate : Nat)
    (subs : List Submission) (st : EvalStore) : EvalStore :=
  let qc := qualifyingCount c subs
  let passed := evalPassed c subs
  if st.dailyResults.any (fun r => r.memberId == memberId && r.date == evaluationDate) then
    st
  else
    let st1 := { st with dailyResults :=
      st.dailyResults ++ [(⟨memberId, evaluationDate, subs.length, qc, passed⟩ : DailyResult)] }
    if passed then
      { st1 with member := streakTransition true st.member }
    else
      { st1 with
        member := { streakTransition false st.member with
                      totalPenalties := st.member.totalPenalties + c.penaltyAmount },
        ledger := st.ledger ++ [(⟨memberId, c.penaltyAmount, "missed day", evaluationDate⟩ : LedgerEntry)] }

/-- Number of DailyResult rows stored for the key `(memberId, date)`. -/
def resultsFor (st : EvalStore) (memberId : String) (date : Nat) : Nat :=
  (st.dailyResults.filter (fun r => r.memberId == memberId && r.date == date)).length

/-! ## Username sanitizer (`src/utils/sanitizer.js`) and the sanitized
LeetCode controller's `testConnection` handler -/

/-- The JavaScript `String.prototype.trim` whitespace set (WhiteSpace and
LineTerminator code points). -/
def isJsWhitespace (c : Char) : Bool :=
  [(9 : Nat), 10, 11, 12, 13, 32, 160, 5760, 8192, 8193, 8194, 8195, 8196, 8197,
   8198, 8199, 8200, 8201, 8202, 8232, 8233, 8239, 8287, 12288, 65279].contains c.toNat

/-- `String.prototype.trim`. -/
def jsTrim (s : String) : String :=
  String.mk (((s.data.dropWhile isJsWhitespace).reverse.dropWhile isJsWhitespace).reverse)

/-- The `DANGEROUS_PATTERNS.CONTROL_CHARS` character class
`[\x00-\x08\x0B-\x0C\x0E-\x1F\x7F]` (`sanitizer.js` line 44). -/
def isControlCharPattern (c : Char) : Bool :=
  c.toNat ≤ 8 || c.toNat == 11 || c.toNat == 12 ||
    (14 ≤ c.toNat && c.toNat ≤ 31) || c.toNat == 127

/-- JavaScript `\w`: ASCII letters, digits and underscore. -/
def isJsWordChar (c : Char) : Bool :=
  c.isAlphanum || c == '_'

/-- Case-insensitive comparison of a literal pattern against the start of the
input. -/
def startsWithCI : List Char → List Char → Bool
  | [], _ => true
  | _ :: _, [] => false
  | p :: ps, c :: cs => (p.toLower == c.toLower) && startsWithCI ps cs

/-- Scan for the first case-insensitive occurrence of `</script>` and return
the characters after it; `none` when there is no occurrence. -/
def dropThroughCloseScript : List Char → Option (List Char)
  | [] => none
  | c :: cs =>
    if startsWithCI "</script>".data (c :: cs) then some ((c :: cs).drop 9)
    else dropThroughCloseScript cs

/-- The input starts with `<script` (case-insensitively) followed by a word
boundary, the opening of the `SCRIPT_TAGS` pattern (`sanitizer.js` line 30). -/
def scriptOpenAt (l : List Char) : Bool :=
  startsWithCI "<script".data l &&
    (match l.drop 7 with
     | [] => true
     | c :: _ => !isJsWordChar c)

/-- One global-replace pass of `DANGEROUS_PATTERNS.SCRIPT_TAGS`
(`/<script\b[^<]*(?:(?!<\/script>)<[^<]*)*<\/script>/gi`): a match runs from an
opening `<script` with a word boundary through the first subsequent
`</script>`; matched spans are removed, everything else is kept.  The fuel
argument bounds the recursion and is instantiated with the input length, which
the scan never exceeds (each step consumes at least one character). -/
def stripScriptTagsFuel : Nat → List Char → List Char
  | 0, l => l
  | _, [] => []
  | fuel + 1, c :: cs =>
    if scriptOpenAt (c :: cs) then
      match dropThroughCloseScript ((c :: cs).drop 7) with
      | some rest => stripScriptTagsFuel fuel rest
      | none => c :: stripScriptTagsFuel fuel cs
    else c :: stripScriptTagsFuel fuel cs

/-- `input.replace(DANGEROUS_PATTERNS.SCRIPT_TAGS, "")`. -/
def stripScriptTags (l : List Char) : List Char :=
  stripScriptTagsFuel l.length l

/-- Scan for the first `>` and return the characters after it; `none` when
there is none. -/
def dropThroughGt : List Char → Option (List Char)
  | [] => none
  | c :: cs => if c == '>' then some cs else dropThroughGt cs

/-- One global-replace pass of `DANGEROUS_PATTERNS.HTML_TAGS` (`/<[^>]*>/g`): a
match runs from a `<` through the first subsequent `>`; matched spans are
removed.  Fuel as in `stripScriptTagsFuel`. -/
def stripHtmlTagsFuel : Nat → List Char → List Char
  | 0, l => l
  | _, [] => []
  | fuel + 1, c :: cs =>
    if c == '<' then
      match dropThroughGt cs with
      | some rest => stripHtmlTagsFuel fuel rest
      | none => c :: stripHtmlTagsFuel fuel cs
    else c :: stripHtmlTagsFuel fuel cs

/-- `input.replace(DANGEROUS_PATTERNS.HTML_TAGS, "")`. -/
def stripHtmlTags (l : List Char) : List Char :=
  stripHtmlTagsFuel l.length l

/-- `sanitizeUsername(username)` (`sanitizer.js` lines 159–182): a falsy input
returns `""`; the input is trimmed; a trimmed length above 50 throws "Username
is too long" (the `Except.error`); control characters, null bytes, script tags
and HTML tags are removed; finally every character outside `[a-zA-Z0-9_-]` is
removed.  Lengths are counted in characters. -/
def sanitizeUsername (username : String) : Except String String :=
  if username = "" then Except.ok ""
  else
    let t := jsTrim username
    if 50 < t.length then Except.error "Username is too long"
    else
      let s1 := t.data.filter (fun c => !isControlCharPattern c)
      let s2 := s1.filter (fun c => c.toNat != 0)
      let s3 := stripScriptTags s2
      let s4 := stripHtmlTags s3
      let s5 := s4.filter (fun c => c.isAlphanum || c == '_' || c == '-')
      Except.ok (String.mk s5)

/-- The outcome of one `testConnection` request, as observable at the HTTP
layer. -/
inductive HandlerResponse where
  | badRequest
  | thrown (message : String)
  | referenceError
  | success
deriving DecidableEq

/-- `testConnection` from the sanitized LeetCode controller (lines 32–59): the
username parameter is sanitized (a thrown sanitizer error is caught by
`asyncHandler`); an empty sanitized username yields the 400 "Invalid username
format" response; otherwise the handler evaluates
`date ? new Date(date) : new Date()` — and the identifier `date` is bound
nowhere in the handler's scope, so by JavaScript semantics this evaluation
throws a ReferenceError before `fetchSubmissionsForDate` is called; the 200
"Connection test successful" response is unreachable from there. -/
def testConnection (username : String) : HandlerResponse :=
  match sanitizeUsername username with
  | Except.error msg => HandlerResponse.thrown msg
  | Except.ok u =>
    if u = "" then HandlerResponse.badRequest
    else HandlerResponse.referenceError

/-! ## Theorems: External Submission Client (C2, C3) -/

theorem leetcodeApiLoop_eq_success {responses : Nat → UpstreamResponse} {attempt : Nat}
    {d : String} (backoff remaining : Nat)
    (h : responses attempt = UpstreamResponse.success d) :
    leetcodeApiLoop responses backoff attempt remaining = ⟨ApiOutcome.success d, 1, []⟩ := by
  rw [leetcodeApiLoop.eq_def, h]

theorem leetcodeApiLoop_eq_non429 {responses : Nat → UpstreamResponse} {attempt s : Nat}
    {ra : Option Nat} (backoff remaining : Nat)
    (h : responses attempt = UpstreamResponse.httpError s ra) (hs : ¬ s = 429) :
    leetcodeApiLoop responses backoff attempt remaining =
      ⟨ApiOutcome.immediateError (some s), 1, []⟩ := by
  rw [leetcodeApiLoop.eq_def, h]
  simp [hs]

theorem leetcodeApiLoop_eq_network {responses : Nat → UpstreamResponse} {attempt : Nat}
    (backoff remaining : Nat) (h : responses attempt = UpstreamResponse.networkFailure) :
    leetcodeApiLoop responses backoff attempt remaining =
      ⟨ApiOutcome.immediateError none, 1, []⟩ := by
  rw [leetcodeApiLoop.eq_def, h]

theorem leetcodeApiLoop_eq_429_zero {responses : Nat → UpstreamResponse} {attempt : Nat}
    {ra : Option Nat} (backoff : Nat) (h : responses attempt = UpstreamResponse.httpError 429 ra) :
    leetcodeApiLoop responses backoff attempt 0 = ⟨ApiOutcome.rateLimitExceeded, 1, []⟩ := by
  rw [leetcodeApiLoop.eq_def, h]
  simp

theorem leetcodeApiLoop_eq_429_succ {responses : Nat → UpstreamResponse} {attempt : Nat}
    {ra : Option Nat} (backoff r : Nat)
    (h : responses attempt = UpstreamResponse.httpError 429 ra) :
    leetcodeApiLoop responses backoff attempt (r + 1) =
      ⟨(leetcodeApiLoop responses backoff (attempt + 1) r).outcome,
       (leetcodeApiLoop responses backoff (attempt + 1) r).requests + 1,
       retryDelay backoff attempt ra :: (leetcodeApiLoop responses backoff (attempt + 1) r).delays⟩ := by
  rw [leetcodeApiLoop.eq_def, h]
  simp

theorem leetcodeApiLoop_all429 (responses : Nat → UpstreamResponse) (backoff : Nat) :
    ∀ remaining attempt,
      (∀ i, attempt ≤ i → i ≤ attempt + remaining → is429 (responses i) = true) →
      leetcodeApiLoop responses backoff attempt remaining =
        ⟨ApiOutcome.rateLimitExceeded, remaining + 1,
         (List.range remaining).map
           (fun k => retryDelay backoff (attempt + k) (retryAfterOf (responses (attempt + k))))⟩ := by
  intro remaining
  induction remaining with
  | zero =>
    intro attempt h
    have h0 := h attempt le_rfl (by omega)
    cases hr : responses attempt with
    | success d => rw [hr] at h0; simp [is429] at h0
    | httpError s ra =>
      rw [hr] at h0
      have hs : s = 429 := by simpa [is429] using h0
      subst hs
      rw [leetcodeApiLoop_eq_429_zero backoff hr]
      simp
    | networkFailure => rw [hr] at h0; simp [is429] at h0
  | succ r ih =>
    intro attempt h
    have h0 := h attempt le_rfl (by omega)
    cases hr : responses attempt with
    | success d => rw [hr] at h0; simp [is429] at h0
    | httpError s ra =>
      rw [hr] at h0
      have hs : s = 429 := by simpa [is429] using h0
      subst hs
      have hrec := ih (attempt + 1) (fun i h1 h2 => h i (by omega) (by omega))
      rw [leetcodeApiLoop_eq_429_succ backoff r hr, hrec]
      simp only [ApiRun.mk.injEq]
      refine ⟨trivial, trivial, ?_⟩
      rw [List.range_succ_eq_map, List.map_cons, List.map_map]
      congr 1
      · simp [hr, retryAfterOf]
      · refine List.map_congr_left fun k _ => ?_
        simp only [Function.comp_apply, Nat.succ_eq_add_one]
        rw [show attempt + 1 + k = attempt + (k + 1) from by omega]
    | networkFailure => rw [hr] at h0; simp [is429] at h0

theorem leetcodeApiLoop_rateLimit_all429 (responses : Nat → UpstreamResponse) (backoff : Nat) :
    ∀ remaining attempt,
      (leetcodeApiLoop responses backoff attempt remaining).outcome =
        ApiOutcome.rateLimitExceeded →
      ∀ i, attempt ≤ i → i ≤ attempt + remaining → is429 (responses i) = true := by
  intro remaining
  induction remaining with
  | zero =>
    intro attempt hout i h1 h2
    have hi : i = attempt := by omega
    subst hi
    cases hr : responses i with
    | success d => rw [leetcodeApiLoop_eq_success backoff 0 hr] at hout; simp at hout
    | httpError s ra =>
      by_cases hs : s = 429
      · subst hs; simp [is429, hr]
      · rw [leetcodeApiLoop_eq_non429 backoff 0 hr hs] at hout; simp at hout
    | networkFailure => rw [leetcodeApiLoop_eq_network backoff 0 hr] at hout; simp at hout
  | succ r ih =>
    intro attempt hout i h1 h2
    cases hr : responses attempt with
    | success d => rw [leetcodeApiLoop_eq_success backoff (r + 1) hr] at hout; simp at hout
    | httpError s ra =>
      by_cases hs : s = 429
      · subst hs
        rcases Nat.eq_or_lt_of_le h1 with h | h
        · subst h; simp [is429, hr]
        · rw [leetcodeApiLoop_eq_429_succ backoff r hr] at hout
          exact ih (attempt + 1) (by simpa using hout) i (by omega) (by omega)
      · rw [leetcodeApiLoop_eq_non429 backoff (r + 1) hr hs] at hout; simp at hout
    | networkFailure => rw [leetcodeApiLoop_eq_network backoff (r + 1) hr] at hout; simp at hout

/-- Claim C2.  On upstream 429 responses the client waits the upstream-supplied
`retry-after` delay when the header is present and otherwise an exponential
delay `backoff * 2^attempt` (default base 1000 ms, doubling per attempt); it
makes at most `retries + 1` requests (default `retries = 5`), and throws the
rate-limit error exactly when every one of the `retries + 1` attempts is
answered with a 429. -/
theorem leetcodeApiRequest_rate_limit_retry
    (responses : Nat → UpstreamResponse) (retries backoff : Nat) :
    leetcodeApiRequestDefault responses = leetcodeApiRequest responses 5 1000 ∧
    ((leetcodeApiRequest responses retries backoff).outcome = ApiOutcome.rateLimitExceeded ↔
      ∀ i ≤ retries, is429 (responses i) = true) ∧
    ((∀ i ≤ retries, is429 (responses i) = true) →
      (leetcodeApiRequest responses retries backoff).requests = retries + 1 ∧
      (leetcodeApiRequest responses retries backoff).delays =
        (List.range retries).map
          (fun i => retryDelay backoff i (retryAfterOf (responses i)))) := by
  refine ⟨rfl, ⟨fun hout => ?_, fun hall => ?_⟩, fun hall => ?_⟩
  · intro i hi
    exact leetcodeApiLoop_rateLimit_all429 responses backoff retries 0 hout i (by omega) (by omega)
  · have h := leetcodeApiLoop_all429 responses backoff retries 0
      (fun i h1 h2 => hall i (by omega))
    rw [leetcodeApiRequest, h]
  · have h := leetcodeApiLoop_all429 responses backoff retries 0
      (fun i h1 h2 => hall i (by omega))
    rw [leetcodeApiRequest, h]
    exact ⟨rfl, by simp⟩

/-- Witness for C2: three consecutive 429s without `retry-after` against a
retry budget of 2 exhaust the attempts, make 3 requests and wait 1000 ms then
2000 ms. -/
theorem leetcodeApiRequest_rate_limit_retry_witness :
    (leetcodeApiRequest (fun _ => UpstreamResponse.httpError 429 none) 2 1000).outcome =
        ApiOutcome.rateLimitExceeded ∧
    (leetcodeApiRequest (fun _ => UpstreamResponse.httpError 429 none) 2 1000).requests = 3 ∧
    (leetcodeApiRequest (fun _ => UpstreamResponse.httpError 429 none) 2 1000).delays =
        [1000, 2000] := by
  have h := leetcodeApiRequest_rate_limit_retry (fun _ => UpstreamResponse.httpError 429 none) 2 1000
  have hall : ∀ i ≤ 2, is429 ((fun _ => UpstreamResponse.httpError 429 none) i) = true :=
    fun i _ => rfl
  refine ⟨h.2.1.mpr hall, (h.2.2 hall).1, ?_⟩
  rw [(h.2.2 hall).2]
  decide

theorem leetcodeApiLoop_first_non429 (responses : Nat → UpstreamResponse) (backoff : Nat) :
    ∀ j attempt remaining, j ≤ remaining →
      (∀ i, attempt ≤ i → i < attempt + j → is429 (responses i) = true) →
      isNon429Error (responses (attempt + j)) = true →
      leetcodeApiLoop responses backoff attempt remaining =
        ⟨ApiOutcome.immediateError (errStatus (responses (attempt + j))), j + 1,
         (List.range j).map
           (fun k => retryDelay backoff (attempt + k) (retryAfterOf (responses (attempt + k))))⟩ := by
  intro j
  induction j with
  | zero =>
    intro attempt remaining _ _ herr
    rw [Nat.add_zero] at herr
    cases hr : responses attempt with
    | success d => rw [hr] at herr; simp [isNon429Error] at herr
    | httpError s ra =>
      rw [hr] at herr
      have hs : ¬ s = 429 := by simpa [isNon429Error] using herr
      rw [leetcodeApiLoop_eq_non429 backoff remaining hr hs]
      simp [hr, errStatus]
    | networkFailure =>
      rw [leetcodeApiLoop_eq_network backoff remaining hr]
      simp [hr, errStatus]
  | succ j ih =>
    intro attempt remaining hle h429 herr
    have h0 := h429 attempt le_rfl (by omega)
    cases hr : responses attempt with
    | success d => rw [hr] at h0; simp [is429] at h0
    | httpError s ra =>
      rw [hr] at h0
      have hs : s = 429 := by simpa [is429] using h0
      subst hs
      cases remaining with
      | zero => omega
      | succ r =>
        have hrec := ih (attempt + 1) r (by omega)
          (fun i h1 h2 => h429 i (by omega) (by omega))
          (by rw [show attempt + 1 + j = attempt + (j + 1) from by omega]; exact herr)
        rw [leetcodeApiLoop_eq_429_succ backoff r hr, hrec]
        simp only [ApiRun.mk.injEq]
        refine ⟨by rw [show attempt + 1 + j = attempt + (j + 1) from by omega], trivial, ?_⟩
        rw [List.range_succ_eq_map, List.map_cons, List.map_map]
        congr 1
        · simp [hr, retryAfterOf]
        · refine List.map_congr_left fun k _ => ?_
          simp only [Function.comp_apply, Nat.succ_eq_add_one]
          rw [show attempt + 1 + k = attempt + (k + 1) from by omega]
    | networkFailure => rw [hr] at h0; simp [is429] at h0

/-- Claim C3.  An upstream error other than a 429 — a non-429 HTTP error
response or a network failure carrying no status — is rethrown to the caller
on its first occurrence: the client makes no further request after it and
performs no backoff wait for it (the only waits are those of the 429s that
preceded it; when it occurs on the first attempt there is exactly one request
and no wait at all). -/
theorem leetcodeApiRequest_non429_immediate
    (responses : Nat → UpstreamResponse) (retries backoff j : Nat)
    (hj : j ≤ retries)
    (h429 : ∀ i < j, is429 (responses i) = true)
    (herr : isNon429Error (responses j) = true) :
    (leetcodeApiRequest responses retries backoff).outcome =
        ApiOutcome.immediateError (errStatus (responses j)) ∧
    (leetcodeApiRequest responses retries backoff).requests = j + 1 ∧
    (leetcodeApiRequest responses retries backoff).delays =
      (List.range j).map (fun i => retryDelay backoff i (retryAfterOf (responses i))) := by
  have h := leetcodeApiLoop_first_non429 responses backoff j 0 retries hj
    (fun i h1 h2 => h429 i (by omega)) (by simpa using herr)
  rw [leetcodeApiRequest, h]
  refine ⟨by simp, rfl, by simp⟩

/-- Witness for C3: a network failure on the very first attempt is rethrown
after a single request with no wait at all. -/
theorem leetcodeApiRequest_non429_immediate_witness :
    (leetcodeApiRequest (fun _ => UpstreamResponse.networkFailure) 5 1000).outcome =
        ApiOutcome.immediateError none ∧
    (leetcodeApiRequest (fun _ => UpstreamResponse.networkFailure) 5 1000).requests = 1 ∧
    (leetcodeApiRequest (fun _ => UpstreamResponse.networkFailure) 5 1000).delays = [] := by
  have h := leetcodeApiRequest_non429_immediate (fun _ => UpstreamResponse.networkFailure)
    5 1000 0 (by omega) (fun i hi => absurd hi (by omega)) rfl
  exact ⟨h.1, h.2.1, by rw [h.2.2]; simp⟩

/-! ## Theorems: penalty reconciliation (C1) -/

instance (op : POp) : Decidable (zeroAdjust op) :=
  match op with
  | .apply _ _ _ _ => inferInstanceAs (Decidable True)
  | .adjust _ a => inferInstanceAs (Decidable (a = 0))

/-- Reconciliation together with the well-formedness the database guarantees. -/
def penaltyGood (st : PenaltyState) : Prop :=
  penaltyReconciled st ∧ penaltyWF st

instance (st : PenaltyState) : Decidable (penaltyWF st) := by
  unfold penaltyWF
  infer_instance

theorem ledgerSum_cons (a : PenaltyEntry) (t : List PenaltyEntry) (m : String) :
    ledgerSum (a :: t) m = (if a.memberId == m then a.amount else 0) + ledgerSum t m := by
  simp [ledgerSum]

theorem ledgerSum_append (l1 l2 : List PenaltyEntry) (m : String) :
    ledgerSum (l1 ++ l2) m = ledgerSum l1 m + ledgerSum l2 m := by
  simp [ledgerSum]

theorem ledgerSum_filter_ne (p : Nat) (m : String) :
    ∀ (l : List PenaltyEntry) (e : PenaltyEntry),
      (l.map (fun x => x.id)).Nodup → e ∈ l → e.id = p →
      ledgerSum (l.filter (fun x => x.id != p)) m =
        ledgerSum l m - (if e.memberId == m then e.amount else 0) := by
  intro l
  induction l with
  | nil => intro e _ he _; cases he
  | cons a t ih =>
    intro e hnd hmem hid
    obtain ⟨hnd1, hnd2⟩ : (∀ x ∈ t, ¬ x.id = a.id) ∧ (t.map (fun x => x.id)).Nodup := by
      simpa using hnd
    rcases List.mem_cons.mp hmem with rfl | het
    · have hxid : ∀ x ∈ t, (x.id != p) = true := by
        intro x hx
        have hne : ¬ x.id = p := fun hxp => hnd1 x hx (by rw [hxp, hid])
        simp [hne]
      have hfilter : t.filter (fun x => x.id != p) = t := List.filter_eq_self.mpr hxid
      rw [show List.filter (fun x => x.id != p) (e :: t) = t from by
        rw [List.filter_cons]
        simp [hid, hfilter]]
      rw [ledgerSum_cons]
      ring
    · have hne : ¬ a.id = p := fun hap => hnd1 e het (by rw [hid, hap])
      rw [show List.filter (fun x => x.id != p) (a :: t) =
            a :: List.filter (fun x => x.id != p) t from by
        rw [List.filter_cons]
        simp [hne]]
      rw [ledgerSum_cons, ledgerSum_cons, ih e hnd2 het hid]
      ring

theorem updateMemberTotal_eq_some {members : List MemberRec} {mid : String} {delta : Int}
    {ms : List MemberRec} (h : updateMemberTotal members mid delta = some ms) :
    ms = members.map (fun m =>
      if m.id == mid then { m with totalPenalties := m.totalPenalties + delta } else m) := by
  unfold updateMemberTotal at h
  split at h
  · exact (Option.some.inj h).symm
  · cases h

theorem applyPenalty_eq_of_update {mid : String} {a : Int} {r : String} {d : Nat}
    {st : PenaltyState} {ms : List MemberRec}
    (hu : updateMemberTotal st.members mid a = some ms) :
    applyPenalty mid a r d st =
      ({ nextId := st.nextId + 1,
         ledger := st.ledger ++ [(⟨st.nextId, mid, a, r, d⟩ : PenaltyEntry)],
         members := ms }, none) := by
  simp [applyPenalty, hu]

theorem applyPenalty_eq_of_missing {mid : String} {a : Int} {r : String} {d : Nat}
    {st : PenaltyState} (hu : updateMemberTotal st.members mid a = none) :
    applyPenalty mid a r d st =
      ({ nextId := st.nextId + 1,
         ledger := st.ledger ++ [(⟨st.nextId, mid, a, r, d⟩ : PenaltyEntry)],
         members := st.members }, some "member not found") := by
  simp [applyPenalty, hu]

theorem applyPenalty_preserves_good {mid : String} {a : Int} {r : String} {d : Nat}
    {st st1 : PenaltyState} (h : applyPenalty mid a r d st = (st1, none))
    (hg : penaltyGood st) : penaltyGood st1 := by
  rcases hu : updateMemberTotal st.members mid a with _ | ms
  · rw [applyPenalty_eq_of_missing hu] at h
    simp at h
  · rw [applyPenalty_eq_of_update hu] at h
    have hst1 : st1 =
        { nextId := st.nextId + 1,
          ledger := st.ledger ++ [(⟨st.nextId, mid, a, r, d⟩ : PenaltyEntry)],
          members := ms } := by
      have := congrArg Prod.fst h
      exact this.symm
    subst hst1
    refine ⟨?_, ?_, ?_⟩
    · intro mr hmr
      simp only at hmr
      rw [updateMemberTotal_eq_some hu] at hmr
      rcases List.mem_map.mp hmr with ⟨m0, hm0, rfl⟩
      by_cases hb : m0.id = mid
      · have hbeq : (m0.id == mid) = true := beq_iff_eq.mpr hb
        rw [if_pos hbeq]
        show ledgerSum (st.ledger ++ [(⟨st.nextId, mid, a, r, d⟩ : PenaltyEntry)]) m0.id =
          m0.totalPenalties + a
        rw [ledgerSum_append, hg.1 m0 hm0]
        have hone : ledgerSum [(⟨st.nextId, mid, a, r, d⟩ : PenaltyEntry)] m0.id = a := by
          simp [ledgerSum, hb]
        rw [hone]
      · have hbeq : ¬ ((m0.id == mid) = true) := by simp [hb]
        rw [if_neg hbeq]
        show ledgerSum (st.ledger ++ [(⟨st.nextId, mid, a, r, d⟩ : PenaltyEntry)]) m0.id =
          m0.totalPenalties
        rw [ledgerSum_append, hg.1 m0 hm0]
        have hone : ledgerSum [(⟨st.nextId, mid, a, r, d⟩ : PenaltyEntry)] m0.id = 0 := by
          simp [ledgerSum]
          intro hmm
          exact absurd hmm.symm hb
        rw [hone]
        ring
    · show ((st.ledger ++ [(⟨st.nextId, mid, a, r, d⟩ : PenaltyEntry)]).map
        (fun e => e.id)).Nodup
      rw [List.map_append, List.nodup_append]
      refine ⟨hg.2.1, by simp, ?_⟩
      intro x hx hx1
      rcases List.mem_map.mp hx with ⟨e0, he0, rfl⟩
      have hlt := hg.2.2 e0 he0
      simp at hx1
      omega
    · intro e he
      simp only at he
      rcases List.mem_append.mp he with h1 | h2
      · have := hg.2.2 e h1
        show e.id < st.nextId + 1
        omega
      · have he2 : e = (⟨st.nextId, mid, a, r, d⟩ : PenaltyEntry) := by simpa using h2
        rw [he2]
        show st.nextId < st.nextId + 1
        omega

theorem adjustPenalty_eq_of_found {pid : Nat} {adj : Int} {st : PenaltyState}
    {e : PenaltyEntry} {ms : List MemberRec}
    (hf : st.ledger.find? (fun x => x.id == pid) = some e)
    (hu : updateMemberTotal st.members e.memberId (adj - e.amount) = some ms) :
    adjustPenalty pid adj st =
      ({ nextId := st.nextId,
         ledger := st.ledger.filter (fun x => x.id != pid),
         members := ms }, none) := by
  simp [adjustPenalty, hf, hu]

theorem adjustPenalty_preserves_good {pid : Nat} {st st1 : PenaltyState}
    (h : adjustPenalty pid 0 st = (st1, none)) (hg : penaltyGood st) : penaltyGood st1 := by
  rcases hf : st.ledger.find? (fun x => x.id == pid) with _ | e
  · unfold adjustPenalty at h
    rw [hf] at h
    simp at h
  · have hmem : e ∈ st.ledger := List.mem_of_find?_eq_some hf
    have hid : e.id = pid := by
      have := List.find?_some hf
      simpa using this
    rcases hu : updateMemberTotal st.members e.memberId (0 - e.amount) with _ | ms
    · unfold adjustPenalty at h
      rw [hf] at h
      simp only at h
      rw [hu] at h
      simp at h
    · rw [adjustPenalty_eq_of_found hf hu] at h
      have hst1 : st1 =
          { nextId := st.nextId,
            ledger := st.ledger.filter (fun x => x.id != pid),
            members := ms } := by
        have := congrArg Prod.fst h
        exact this.symm
      subst hst1
      refine ⟨?_, ?_, ?_⟩
      · intro mr hmr
        simp only at hmr
        rw [updateMemberTotal_eq_some hu] at hmr
        rcases List.mem_map.mp hmr with ⟨m0, hm0, rfl⟩
        have hsum := ledgerSum_filter_ne pid m0.id st.ledger e hg.2.1 hmem hid
        by_cases hb : m0.id = e.memberId
        · have hbeq : (m0.id == e.memberId) = true := beq_iff_eq.mpr hb
          rw [if_pos hbeq]
          show ledgerSum (st.ledger.filter (fun x => x.id != pid)) m0.id =
            m0.totalPenalties + (0 - e.amount)
          rw [hsum, hg.1 m0 hm0]
          have hcond : (e.memberId == m0.id) = true := beq_iff_eq.mpr hb.symm
          rw [if_pos hcond]
          ring
        · have hbeq : ¬ ((m0.id == e.memberId) = true) := by simp [hb]
          rw [if_neg hbeq]
          show ledgerSum (st.ledger.filter (fun x => x.id != pid)) m0.id = m0.totalPenalties
          rw [hsum, hg.1 m0 hm0]
          have hcond : ¬ ((e.memberId == m0.id) = true) := by
            simp
            intro hmm
            exact absurd hmm.symm hb
          rw [if_neg hcond]
          ring
      · show ((st.ledger.filter (fun x => x.id != pid)).map (fun x => x.id)).Nodup
        exact (hg.2.1).sublist (List.Sublist.map _ (List.filter_sublist _))
      · intro x hx
        simp only at hx
        exact hg.2.2 x (List.mem_of_mem_filter hx)

theorem runPenaltyOps_preserves_good :
    ∀ (ops : List POp) (st0 : PenaltyState), penaltyGood st0 →
      (∀ op ∈ ops, zeroAdjust op) →
      (runPenaltyOps ops st0).2 = none →
      penaltyGood (runPenaltyOps ops st0).1 := by
  intro ops
  induction ops with
  | nil => intro st0 hg _ _; exact hg
  | cons op ops ih =>
    intro st0 hg hz hok
    rcases hop : runPOp op st0 with ⟨st1, err⟩
    have hgood1 : err = none → penaltyGood st1 := by
      intro herr
      subst herr
      cases op with
      | apply m a r d => exact applyPenalty_preserves_good hop hg
      | adjust p a =>
        have ha : a = 0 := hz _ (List.mem_cons_self _ _)
        subst ha
        exact adjustPenalty_preserves_good hop hg
    cases err with
    | none =>
      have hrun : runPenaltyOps (op :: ops) st0 = runPenaltyOps ops st1 := by
        simp [runPenaltyOps, hop]
      rw [hrun] at hok ⊢
      exact ih st1 (hgood1 rfl) (fun x hx => hz x (List.mem_cons_of_mem _ hx)) hok
    | some e =>
      have hrun : runPenaltyOps (op :: ops) st0 = (st1, some e) := by
        simp [runPenaltyOps, hop]
      rw [hrun] at hok
      cases hok

/-- Claim C1 (amended).  Starting from a well-formed store whose members are
reconciled (each member's ledger sum equals `totalPenalties`), every error-free
sequence of `applyPenalty` and `adjustPenalty` calls in which each
`adjustPenalty` passes `adjustmentAmount = 0` keeps every member reconciled.
(`adjustPenalty` with a nonzero adjustment breaks the invariant: it deletes the
ledger row yet credits `adjustmentAmount` to the member's total with no ledger
record — see the counterexample.) -/
theorem penalty_reconciliation_zero_adjust (ops : List POp) (st0 : PenaltyState)
    (hrec : penaltyReconciled st0) (hwf : penaltyWF st0)
    (hz : ∀ op ∈ ops, zeroAdjust op)
    (hok : (runPenaltyOps ops st0).2 = none) :
    penaltyReconciled (runPenaltyOps ops st0).1 :=
  (runPenaltyOps_preserves_good ops st0 ⟨hrec, hwf⟩ hz hok).1

/-- Witness for the amended C1: applying a 10-unit penalty and then removing it
with a zero adjustment leaves the single member reconciled. -/
theorem penalty_reconciliation_zero_adjust_witness :
    penaltyReconciled
      (runPenaltyOps [POp.apply "m1" 10 "missed day" 0, POp.adjust 0 0]
        ⟨0, [], [⟨"m1", 0⟩]⟩).1 :=
  penalty_reconciliation_zero_adjust _ _ (by decide) (by decide) (by decide) (by decide)

/-- Counterexample to C1 as stated: from a reconciled, well-formed store,
`applyPenalty("m1", 10)` followed by `adjustPenalty` of that entry with
`adjustmentAmount = 5` completes without error yet leaves the member's ledger
sum at 0 while `totalPenalties` is 5 — the reconciliation invariant does not
survive every sequence of penalty operations. -/
theorem penalty_reconciliation_cex :
    penaltyReconciled (⟨0, [], [⟨"m1", 0⟩]⟩ : PenaltyState) ∧
    penaltyWF (⟨0, [], [⟨"m1", 0⟩]⟩ : PenaltyState) ∧
    (runPenaltyOps [POp.apply "m1" 10 "missed day" 0, POp.adjust 0 5]
        (⟨0, [], [⟨"m1", 0⟩]⟩ : PenaltyState)).2 = none ∧
    ¬ penaltyReconciled
      (runPenaltyOps [POp.apply "m1" 10 "missed day" 0, POp.adjust 0 5]
        (⟨0, [], [⟨"m1", 0⟩]⟩ : PenaltyState)).1 := by
  refine ⟨by decide, by decide, by decide, by decide⟩

/-! ## Theorems: job queue retry policy (C4) -/

theorem driveJob_retryable (now base M : Nat) :
    ∀ (fuel a t : Nat), a + fuel = M → a < M →
      (driveJob (fun _ => HandlerOutcome.errRetryable) now base
          ⟨a, M, JobState.waiting, t⟩ fuel).1.state = JobState.failed ∧
      (driveJob (fun _ => HandlerOutcome.errRetryable) now base
          ⟨a, M, JobState.waiting, t⟩ fuel).1.attempt = M ∧
      (driveJob (fun _ => HandlerOutcome.errRetryable) now base
          ⟨a, M, JobState.waiting, t⟩ fuel).2 =
        (List.range (fuel - 1)).map (fun k => base * 2 ^ (a + 1 + k)) := by
  intro fuel
  induction fuel with
  | zero => intro a t hsum hlt; omega
  | succ f ih =>
    intro a t hsum hlt
    by_cases hlast : a + 1 < M
    · have hstep : driveJob (fun _ => HandlerOutcome.errRetryable) now base
          ⟨a, M, JobState.waiting, t⟩ (f + 1) =
          ((driveJob (fun _ => HandlerOutcome.errRetryable) now base
              ⟨a + 1, M, JobState.waiting, now + base * 2 ^ (a + 1)⟩ f).1,
           base * 2 ^ (a + 1) ::
             (driveJob (fun _ => HandlerOutcome.errRetryable) now base
                ⟨a + 1, M, JobState.waiting, now + base * 2 ^ (a + 1)⟩ f).2) := by
        simp [driveJob, processOnce, failJob, hlast]
      have hrec := ih (a + 1) (now + base * 2 ^ (a + 1)) (by omega) (by omega)
      rw [hstep]
      refine ⟨hrec.1, hrec.2.1, ?_⟩
      have hf : f ≥ 1 := by omega
      show base * 2 ^ (a + 1) ::
          (driveJob (fun _ => HandlerOutcome.errRetryable) now base
            ⟨a + 1, M, JobState.waiting, now + base * 2 ^ (a + 1)⟩ f).2 =
        (List.range (f + 1 - 1)).map (fun k => base * 2 ^ (a + 1 + k))
      rw [hrec.2.2, show f + 1 - 1 = (f - 1) + 1 from by omega, List.range_succ_eq_map,
        List.map_cons, List.map_map]
      congr 1
      refine List.map_congr_left fun k _ => ?_
      simp only [Function.comp_apply, Nat.succ_eq_add_one]
      rw [show a + 1 + 1 + k = a + 1 + (k + 1) from by omega]
    · have hM : a + 1 = M := by omega
      have hf : f = 0 := by omega
      subst hf
      have hnot : ¬ (a + 1 < M) := by omega
      refine ⟨?_, ?_, ?_⟩ <;>
        simp [driveJob, processOnce, failJob, hnot, hM]

/-- Claim C4.  A job whose handler always raises a retryable error is retried
while `attempt < maxAttempts`, each retry scheduled after
`baseDelay * 2^attempt`, so the waits strictly increase; after the last attempt
the job is failed terminally with exactly `maxAttempts` runs.  A job whose
handler raises a non-retryable error is failed on its first run, with no retry
and no backoff delay at all. -/
theorem job_retry_policy (now base M : Nat) (hM : 0 < M) (hbase : 0 < base) :
    (driveJob (fun _ => HandlerOutcome.errRetryable) now base (freshJob M) M).1.state =
        JobState.failed ∧
    (driveJob (fun _ => HandlerOutcome.errRetryable) now base (freshJob M) M).1.attempt = M ∧
    (driveJob (fun _ => HandlerOutcome.errRetryable) now base (freshJob M) M).2 =
      (List.range (M - 1)).map (fun k => base * 2 ^ (k + 1)) ∧
    (driveJob (fun _ => HandlerOutcome.errRetryable) now base (freshJob M) M).2.Pairwise (· < ·) ∧
    (driveJob (fun _ => HandlerOutcome.errNonRetryable) now base (freshJob M) M).1.state =
        JobState.failed ∧
    (driveJob (fun _ => HandlerOutcome.errNonRetryable) now base (freshJob M) M).1.attempt = 1 ∧
    (driveJob (fun _ => HandlerOutcome.errNonRetryable) now base (freshJob M) M).2 = [] := by
  have h := driveJob_retryable now base M M 0 0 (by omega) hM
  have hdelays : (driveJob (fun _ => HandlerOutcome.errRetryable) now base (freshJob M) M).2 =
      (List.range (M - 1)).map (fun k => base * 2 ^ (k + 1)) := by
    rw [show freshJob M = ⟨0, M, JobState.waiting, 0⟩ from rfl, h.2.2]
    exact List.map_congr_left fun k _ => by rw [show 0 + 1 + k = k + 1 from by omega]
  have hpairwise : (driveJob (fun _ => HandlerOutcome.errRetryable) now base
      (freshJob M) M).2.Pairwise (· < ·) := by
    rw [hdelays]
    refine List.Pairwise.map _ ?_ (List.pairwise_lt_range _)
    intro x y hxy
    have hpow : 2 ^ (x + 1) < 2 ^ (y + 1) :=
      Nat.pow_lt_pow_right (by norm_num) (by omega)
    exact mul_lt_mul_of_pos_left hpow hbase
  have hnon : (driveJob (fun _ => HandlerOutcome.errNonRetryable) now base (freshJob M) M) =
      (⟨1, M, JobState.failed, 0⟩, []) := by
    cases M with
    | zero => omega
    | succ m => simp [driveJob, processOnce, freshJob]
  exact ⟨h.1, h.2.1, hdelays, hpairwise, by rw [hnon], by rw [hnon], by rw [hnon]⟩

/-- Witness for C4 at the spec defaults `maxAttempts = 3`, `baseDelay = 5000` ms:
the retryable job runs 3 times with waits 10 s then 20 s and fails terminally;
the non-retryable job fails after its single run with no waits. -/
theorem job_retry_policy_witness :
    (driveJob (fun _ => HandlerOutcome.errRetryable) 0 5000 (freshJob 3) 3).1.state =
        JobState.failed ∧
    (driveJob (fun _ => HandlerOutcome.errRetryable) 0 5000 (freshJob 3) 3).1.attempt = 3 ∧
    (driveJob (fun _ => HandlerOutcome.errRetryable) 0 5000 (freshJob 3) 3).2 =
        [10000, 20000] ∧
    (driveJob (fun _ => HandlerOutcome.errRetryable) 0 5000 (freshJob 3) 3).2.Pairwise (· < ·) ∧
    (driveJob (fun _ => HandlerOutcome.errNonRetryable) 0 5000 (freshJob 3) 3).1.state =
        JobState.failed ∧
    (driveJob (fun _ => HandlerOutcome.errNonRetryable) 0 5000 (freshJob 3) 3).1.attempt = 1 ∧
    (driveJob (fun _ => HandlerOutcome.errNonRetryable) 0 5000 (freshJob 3) 3).2 = [] := by
  obtain ⟨h1, h2, h3, h4, h5, h6, h7⟩ := job_retry_policy 0 5000 3 (by decide) (by decide)
  exact ⟨h1, h2, by rw [h3]; decide, h4, h5, h6, h7⟩

/-! ## Theorems: fan-out orchestrator (C5) -/

/-- Claim C5.  For a challenge that is active and whose evaluation date lies in
`[startDate, endDate]`, one `challenge-evaluation` job enqueues exactly one
`member-evaluation` job per active member — `N` jobs for `N` members, with the
expected payloads; an inactive challenge, or a date outside the window, yields
zero jobs (a successful no-op). -/
theorem fanout_enqueues_per_member (c : Challenge) (activeMembers : List String) (d : Nat) :
    (c.status = "active" → c.startDate ≤ d → d ≤ c.endDate →
      processChallengeEvaluation c activeMembers d =
        activeMembers.map (fun m => ⟨c.id, m, d⟩) ∧
      (processChallengeEvaluation c activeMembers d).length = activeMembers.length) ∧
    ((c.status ≠ "active" ∨ d < c.startDate ∨ c.endDate < d) →
      processChallengeEvaluation c activeMembers d = []) := by
  constructor
  · intro h1 h2 h3
    have hcond : ¬ (c.status ≠ "active" ∨ d < c.startDate ∨ c.endDate < d) := by
      push_neg
      exact ⟨h1, h2, h3⟩
    simp only [processChallengeEvaluation, if_neg hcond]
    exact ⟨by simp, by simp⟩
  · intro h
    simp only [processChallengeEvaluation, if_pos h]

/-- Witness for C5: an active challenge in its window fans out to 3 jobs for 3
members; the same members under a completed challenge fan out to none. -/
theorem fanout_enqueues_per_member_witness :
    processChallengeEvaluation (⟨"ch1", 1, 10, 1, [], false, 50, "active"⟩ : Challenge)
        ["a", "b", "c"] 5 =
      [⟨"ch1", "a", 5⟩, ⟨"ch1", "b", 5⟩, ⟨"ch1", "c", 5⟩] ∧
    (processChallengeEvaluation (⟨"ch1", 1, 10, 1, [], false, 50, "active"⟩ : Challenge)
        ["a", "b", "c"] 5).length = 3 ∧
    processChallengeEvaluation (⟨"ch2", 1, 10, 1, [], false, 50, "completed"⟩ : Challenge)
        ["a", "b", "c"] 5 = [] := by
  have h1 := (fanout_enqueues_per_member (⟨"ch1", 1, 10, 1, [], false, 50, "active"⟩ : Challenge)
    ["a", "b", "c"] 5).1 rfl (by decide) (by decide)
  have h2 := (fanout_enqueues_per_member
    (⟨"ch2", 1, 10, 1, [], false, 50, "completed"⟩ : Challenge) ["a", "b", "c"] 5).2
    (Or.inl (by decide))
  exact ⟨by rw [h1.1]; rfl, h1.2, h2⟩

/-! ## Theorems: member evaluation idempotence and streak invariants (C6, C7) -/

/-- Claim C6.  When no DailyResult exists yet for `(memberId, evaluationDate)`,
running the member-evaluation handler leaves exactly one DailyResult row for
that key, and running it a second time with the same input is a no-op — the
streak/penalty delta is applied exactly once. -/
theorem member_evaluation_idempotent (c : Challenge) (mid : String) (d : Nat)
    (subs : List Submission) (st : EvalStore)
    (hfresh : resultsFor st mid d = 0) :
    processMemberEvaluation c mid d subs (processMemberEvaluation c mid d subs st) =
      processMemberEvaluation c mid d subs st ∧
    resultsFor (processMemberEvaluation c mid d subs st) mid d = 1 := by
  have hnil : st.dailyResults.filter (fun r => r.memberId == mid && r.date == d) = [] :=
    List.length_eq_zero.mp hfresh
  have hall := List.filter_eq_nil_iff.mp hnil
  have hany : st.dailyResults.any (fun r => r.memberId == mid && r.date == d) = false := by
    rw [List.any_eq_false]
    exact hall
  have hdr : (processMemberEvaluation c mid d subs st).dailyResults =
      st.dailyResults ++
        [(⟨mid, d, subs.length, qualifyingCount c subs, evalPassed c subs⟩ : DailyResult)] := by
    simp only [processMemberEvaluation, hany, Bool.false_eq_true, if_false]
    split <;> rfl
  have hany2 : (processMemberEvaluation c mid d subs st).dailyResults.any
      (fun r => r.memberId == mid && r.date == d) = true := by
    rw [hdr, List.any_append]
    simp
  constructor
  · conv_lhs => rw [processMemberEvaluation.eq_def]
    rw [hany2]
    simp
  · rw [resultsFor, hdr, List.filter_append, hnil]
    simp

/-- Witness for C6: a fresh store, a one-submission day against a
one-per-day challenge — the second run equals the first and one row exists. -/
theorem member_evaluation_idempotent_witness :
    processMemberEvaluation (⟨"ch1", 1, 10, 1, [], false, 50, "active"⟩ : Challenge)
        "m1" 3 [⟨"two-sum", "Easy", 100, true⟩]
        (processMemberEvaluation (⟨"ch1", 1, 10, 1, [], false, 50, "active"⟩ : Challenge)
          "m1" 3 [⟨"two-sum", "Easy", 100, true⟩] (⟨[], ⟨0, 0, 0⟩, []⟩ : EvalStore)) =
      processMemberEvaluation (⟨"ch1", 1, 10, 1, [], false, 50, "active"⟩ : Challenge)
        "m1" 3 [⟨"two-sum", "Easy", 100, true⟩] (⟨[], ⟨0, 0, 0⟩, []⟩ : EvalStore) ∧
    resultsFor
      (processMemberEvaluation (⟨"ch1", 1, 10, 1, [], false, 50, "active"⟩ : Challenge)
        "m1" 3 [⟨"two-sum", "Easy", 100, true⟩] (⟨[], ⟨0, 0, 0⟩, []⟩ : EvalStore)) "m1" 3 = 1 :=
  member_evaluation_idempotent _ "m1" 3 _ _ (by decide)

/-- Claim C7.  Both the pure §4.4 streak transition and the full
member-evaluation handler preserve the ChallengeMember invariants
`currentStreak ≥ 0` and `longestStreak ≥ currentStreak`. -/
theorem streak_invariants_preserved (passed : Bool) (m : MemberState)
    (c : Challenge) (mid : String) (d : Nat) (subs : List Submission) (st : EvalStore)
    (h1 : 0 ≤ m.currentStreak) (h2 : m.currentStreak ≤ m.longestStreak)
    (h3 : 0 ≤ st.member.currentStreak)
    (h4 : st.member.currentStreak ≤ st.member.longestStreak) :
    (0 ≤ (streakTransition passed m).currentStreak ∧
     (streakTransition passed m).currentStreak ≤ (streakTransition passed m).longestStreak) ∧
    (0 ≤ (processMemberEvaluation c mid d subs st).member.currentStreak ∧
     (processMemberEvaluation c mid d subs st).member.currentStreak ≤
       (processMemberEvaluation c mid d subs st).member.longestStreak) := by
  constructor
  · cases passed <;> simp [streakTransition] <;> omega
  · by_cases hany : st.dailyResults.any (fun r => r.memberId == mid && r.date == d) = true
    · simp only [processMemberEvaluation, hany, if_true]
      exact ⟨h3, h4⟩
    · by_cases hp : evalPassed c subs = true <;>
        simp [processMemberEvaluation, hany, hp, streakTransition] <;>
        omega

/-- Witness for C7: from streaks (2, 5) a passing evaluation and a handler run
both keep the invariants. -/
theorem streak_invariants_preserved_witness :
    (0 ≤ (streakTransition true ⟨2, 5, 0⟩).currentStreak ∧
     (streakTransition true ⟨2, 5, 0⟩).currentStreak ≤
       (streakTransition true ⟨2, 5, 0⟩).longestStreak) ∧
    (0 ≤ (processMemberEvaluation (⟨"ch1", 1, 10, 1, [], false, 50, "active"⟩ : Challenge)
        "m1" 3 [] (⟨[], ⟨2, 5, 0⟩, []⟩ : EvalStore)).member.currentStreak ∧
     (processMemberEvaluation (⟨"ch1", 1, 10, 1, [], false, 50, "active"⟩ : Challenge)
        "m1" 3 [] (⟨[], ⟨2, 5, 0⟩, []⟩ : EvalStore)).member.currentStreak ≤
       (processMemberEvaluation (⟨"ch1", 1, 10, 1, [], false, 50, "active"⟩ : Challenge)
        "m1" 3 [] (⟨[], ⟨2, 5, 0⟩, []⟩ : EvalStore)).member.longestStreak) :=
  streak_invariants_preserved true ⟨2, 5, 0⟩ _ "m1" 3 [] _
    (by decide) (by decide) (by decide) (by decide)

/-! ## Theorems: total-penalty query (C9) -/

/-- Claim C9.  `getMemberTotalPenalty` is a total function into the integers;
for a member with no PenaltyLedger rows the aggregate sum is null and the
`|| 0` coalescing makes the result 0 — not null and not an error. -/
theorem getMemberTotalPenalty_total_zero (ledger : List PenaltyEntry) (mid : String)
    (h : ∀ e ∈ ledger, e.memberId ≠ mid) :
    getMemberTotalPenalty ledger mid = 0 := by
  have hnil : ledger.filter (fun e => e.memberId == mid) = [] :=
    List.filter_eq_nil_iff.mpr (fun e he => by simp [h e he])
  simp [getMemberTotalPenalty, aggregateAmountSum, hnil]

/-- Witness for C9: the empty ledger yields a total of 0 for any member. -/
theorem getMemberTotalPenalty_total_zero_witness :
    getMemberTotalPenalty [] "m1" = 0 :=
  getMemberTotalPenalty_total_zero [] "m1" (by simp)

/-! ## Theorems: sanitized testConnection handler (C10) -/

/-- Claim C10 (amended).  The sanitized `testConnection` handler can never
return the success response, and every request whose username sanitizes
successfully to a nonempty string hits the unbound identifier `date` and
raises a ReferenceError before `fetchSubmissionsForDate` is called.  (A
request whose username sanitizes to the empty string is answered 400 before
`date` is ever evaluated — see the counterexample.) -/
theorem testConnection_never_success (username : String) :
    testConnection username ≠ HandlerResponse.success ∧
    (∀ u, sanitizeUsername username = Except.ok u → ¬ u = "" →
      testConnection username = HandlerResponse.referenceError) := by
  constructor
  · cases h : sanitizeUsername username with
    | error msg => simp [testConnection, h]
    | ok u =>
      simp only [testConnection, h]
      split <;> simp
  · intro u hu hne
    unfold testConnection
    rw [hu]
    simp [hne]

/-- Witness for the amended C10: the username "abc" sanitizes to itself, and
the handler raises the ReferenceError instead of succeeding. -/
theorem testConnection_never_success_witness :
    testConnection "abc" = HandlerResponse.referenceError ∧
    testConnection "abc" ≠ HandlerResponse.success := by
  have h := testConnection_never_success "abc"
  exact ⟨h.2 "abc" rfl (by decide), h.1⟩

/-- Counterexample to C10 as stated: the request with username "!" sanitizes
to the empty string, so the handler returns the 400 response without ever
evaluating `date` — it does not raise a ReferenceError on every request. -/
theorem testConnection_cex :
    testConnection "!" = HandlerResponse.badRequest ∧
    testConnection "!" ≠ HandlerResponse.referenceError := by
  exact ⟨by decide, by decide⟩
